import Mathlib

/-!
Verification of the Grimrold request-orchestration core against its design
specification.  Each section shallowly embeds one component of the source
(`src/Grimrold/core/grimoire.js`, `modelManager.js`, `local-model-manager.js`,
`localModels.js`, and the async utility module) as executable Lean functions,
and proves the spec's claims about them.

Conventions of the embedding:
* JS `Map` objects become association lists with `Map.get`/`Map.set` semantics.
* Timestamps (`new Date()` / `Date.now()`) become `Nat` parameters supplied by
  the caller (an explicit clock).
* External effects (remote provider clients, `fs.access`, spawned processes,
  `Math.random` jitter) become oracle parameters, so every definition is a
  pure, computable function of the code's actual control flow.
* `uuidv4` message/conversation ids and free-form metadata objects are not
  observed by any claim and are omitted from the records.
-/

namespace Grimrold

/-! ## Dispatcher (Grimoire) conversation store — `src/Grimrold/core/grimoire.js` -/

/-- Message role, `role ∈ {user, assistant, system}` (grimoire.js builds exactly these). -/
inductive Role
  | user
  | assistant
  | system
deriving DecidableEq

/-- A conversation message as built by `Grimoire.processMessage`
(grimoire.js lines 84-90, 102-113, 130-140): role, content, timestamp and the
`isError` mark carried only by the system error message. -/
structure Message where
  role : Role
  content : String
  timestamp : Nat
  isError : Bool
deriving DecidableEq

/-- The model descriptor attached to a conversation (`conversation.model`),
as returned by the registry: id, display name, and optional provider tag
(grimoire.js line 154 switches on `model.provider`). -/
structure ModelRef where
  id : String
  name : String
  provider : Option String
deriving DecidableEq

/-- A conversation record (grimoire.js lines 59-70). -/
structure Conversation where
  id : String
  model : ModelRef
  messages : List Message
  createdAt : Nat
  updatedAt : Nat
deriving DecidableEq

/-- The Dispatcher's conversation store, `this.conversations : Map<string, Conversation>`,
embedded as an association list with JS `Map` get/set semantics (keys unique). -/
abbrev ConvStore := List (String × Conversation)

/-- JS `Map.prototype.get` on the conversation store. -/
def storeGet : ConvStore → String → Option Conversation
  | [], _ => none
  | p :: t, k => if p.1 == k then some p.2 else storeGet t k

/-- JS `Map.prototype.set` on the conversation store: replace the entry of an
existing key in place, otherwise append (Map preserves insertion order). -/
def storeSet : ConvStore → String → Conversation → ConvStore
  | [], k, v => [(k, v)]
  | p :: t, k, v => if p.1 == k then (k, v) :: t else p :: storeSet t k v

theorem storeGet_storeSet_self (s : ConvStore) (k : String) (v : Conversation) :
    storeGet (storeSet s k v) k = some v := by
  induction s with
  | nil => simp [storeGet, storeSet]
  | cons p t ih =>
      by_cases h : p.1 = k
      · simp [storeGet, storeSet, h]
      · simp [storeGet, storeSet, h, ih]

theorem storeGet_storeSet_ne (s : ConvStore) (k k' : String) (v : Conversation)
    (h : k' ≠ k) : storeGet (storeSet s k v) k' = storeGet s k' := by
  induction s with
  | nil => simp [storeGet, storeSet, Ne.symm h]
  | cons p t ih =>
      by_cases hp : p.1 = k
      · simp [storeGet, storeSet, hp, Ne.symm h]
      · simp [storeGet, storeSet, hp, ih]

/-- Modelled from the spec: the ModelRegistry lookup `modelManager.getModel` called by
`Grimoire.createConversation` (grimoire.js line 57) is not under `src/` — the
`modelManager.js` that is under `src/` exports a class with no `getModel`; only the caller
and the unit test `tests/modelManager.test.js` reference it.  Per the spec ("resolves
`modelId` via ModelRegistry ...; fails if resolution fails") and the test (a registry
holding one model `default` named `Default Model`, and `getModel('non-existent')` throws
`Model not found`), it returns the registered descriptor for a known id and fails with
`Model not found` otherwise. -/
def getModel (registry : List ModelRef) (modelId : String) : Except String ModelRef :=
  match registry.find? (fun m => m.id == modelId) with
  | some m => Except.ok m
  | none => Except.error ("Model not found")

/-- Modelled from the spec: the registry contents backing `getModel`, per the unit test —
a single model with id `default` and name `Default Model` (no provider tag, so
`generateResponse` takes its `default` switch branch). -/
def defaultRegistry : List ModelRef := [⟨"default", "Default Model", none⟩]

/-- `Grimoire.createConversation(modelId, options)` (grimoire.js lines 55-74):
resolve the model (falling back to `this.defaultModel`), build a conversation with an
empty message list, store it under the conversation id, and return it.
`cid` stands for `options.conversationId || uuidv4()`, `now` for `new Date()`. -/
def createConversation (registry : List ModelRef) (store : ConvStore)
    (modelId : Option String) (defaultModel : String) (cid : String) (now : Nat) :
    Except String (Conversation × ConvStore) :=
  match getModel registry (modelId.getD defaultModel) with
  | Except.error e => Except.error e
  | Except.ok m =>
      let conv : Conversation := ⟨cid, m, [], now, now⟩
      Except.ok (conv, storeSet store cid conv)

/-- A message prepared for a backend call (`prepareMessages`, grimoire.js lines 170-176). -/
structure PreparedMsg where
  role : Role
  content : String
deriving DecidableEq

/-- `Grimoire.prepareMessages` (grimoire.js lines 170-176), dropping the unobserved
optional `name` field. -/
def prepareMessages (msgs : List Message) : List PreparedMsg :=
  msgs.map (fun m => ⟨m.role, m.content⟩)

/-- `Grimoire.generateWithDefault` (grimoire.js lines 225-229): echoes the last
message.  `messages[messages.length - 1]` on an empty list is a JS `TypeError` when its
`.content` is read, embedded as an error. -/
def generateWithDefault (messages : List PreparedMsg) (model : ModelRef) :
    Except String String :=
  match messages.getLast? with
  | none => Except.error ("Cannot read properties of undefined")
  | some last => Except.ok ("Model \"" ++ model.id ++ "\" received: " ++ last.content)

/-- `Grimoire.generateResponse` (grimoire.js lines 149-168): switch on
`model.provider`; the three remote providers call external clients (the `remote`
oracle), anything else takes the default branch; any error is re-thrown wrapped as
`Failed to generate response: ...`. -/
def generateResponse (remote : String → List PreparedMsg → Except String String)
    (conv : Conversation) : Except String String :=
  let messages := prepareMessages conv.messages
  let r : Except String String :=
    match conv.model.provider with
    | some p =>
        if p == "openai" || p == "google" || p == "huggingface" then remote p messages
        else generateWithDefault messages conv.model
    | none => generateWithDefault messages conv.model
  match r with
  | Except.ok v => Except.ok v
  | Except.error e => Except.error ("Failed to generate response: " ++ e)

/-- The result object returned by `processMessage` (grimoire.js lines 118-125),
restricted to the fields the spec observes. -/
structure GenResult where
  response : String
  conversationId : String
  model : String
deriving DecidableEq

/-- `Grimoire.processMessage(conversationId, message, options)` (grimoire.js lines
76-147).  Unknown id: throw `Conversation not found` before touching anything.
Otherwise: push the `user` message (always), run `generateResponse`; on success push
the `assistant` message and return the result object; on failure push the `system`
message marked `isError` and re-raise.  JS mutates the stored conversation object in
place; the embedding returns the store as observed when the call completes, together
with the returned value or the re-raised error. -/
def processMessage (remote : String → List PreparedMsg → Except String String)
    (store : ConvStore) (cid : String) (text : String) (now : Nat) :
    Except String GenResult × ConvStore :=
  match storeGet store cid with
  | none => (Except.error ("Conversation not found"), store)
  | some conv =>
      let userMsg : Message := ⟨Role.user, text, now, false⟩
      let conv1 : Conversation :=
        { conv with messages := conv.messages ++ [userMsg], updatedAt := now }
      match generateResponse remote conv1 with
      | Except.ok response =>
          let aMsg : Message := ⟨Role.assistant, response, now, false⟩
          let conv2 : Conversation :=
            { conv1 with messages := conv1.messages ++ [aMsg], updatedAt := now }
          (Except.ok ⟨response, cid, conv.model.id⟩, storeSet store cid conv2)
      | Except.error e =>
          let eMsg : Message := ⟨Role.system, "Error: " ++ e, now, true⟩
          let conv2 : Conversation :=
            { conv1 with messages := conv1.messages ++ [eMsg], updatedAt := now }
          (Except.error e, storeSet store cid conv2)

/-- Helper: the shape of one completed `processMessage` call on a conversation that is
present in the store — the user message plus exactly one reply message (assistant on
success, system error on failure, the error being re-raised). -/
theorem processMessage_shape (remote : String → List PreparedMsg → Except String String)
    (store : ConvStore) (cid text : String) (now : Nat) (conv : Conversation)
    (h : storeGet store cid = some conv) :
    ∃ m2 : Message,
      (processMessage remote store cid text now).2 =
        storeSet store cid
          { conv with messages := conv.messages ++ [⟨Role.user, text, now, false⟩, m2],
                      updatedAt := now }
      ∧ ((m2.role = Role.assistant ∧ m2.isError = false ∧
            (processMessage remote store cid text now).1 =
              Except.ok ⟨m2.content, cid, conv.model.id⟩)
         ∨ (∃ e, m2.role = Role.system ∧ m2.isError = true ∧
              m2.content = "Error: " ++ e ∧
              (processMessage remote store cid text now).1 = Except.error e)) := by
  cases hg : generateResponse remote
      { conv with messages := conv.messages ++ [⟨Role.user, text, now, false⟩],
                  updatedAt := now } with
  | ok response =>
      refine ⟨⟨Role.assistant, response, now, false⟩, ?_, Or.inl ⟨rfl, rfl, ?_⟩⟩ <;>
        simp [processMessage, h, hg]
  | error e =>
      refine ⟨⟨Role.system, "Error: " ++ e, now, true⟩, ?_,
        Or.inr ⟨e, rfl, rfl, rfl, ?_⟩⟩ <;>
        simp [processMessage, h, hg]

/-- Helper: a sequence of completed `processMessage` calls, each observed at completion,
threaded through the store (the JS object is mutated in place; the re-raised error does
not undo the appended messages). -/
def runCalls (remote : String → List PreparedMsg → Except String String) :
    ConvStore → List (String × String × Nat) → ConvStore
  | store, [] => store
  | store, c :: cs => runCalls remote (processMessage remote store c.1 c.2.1 c.2.2).2 cs

/-- Helper: one completed call preserves presence and message-count parity of every
conversation that is in the store. -/
theorem processMessage_parity (remote : String → List PreparedMsg → Except String String)
    (store : ConvStore) (c t : String) (n : Nat) (cid : String) (conv : Conversation)
    (h : storeGet store cid = some conv) (he : Even conv.messages.length) :
    ∃ conv2, storeGet (processMessage remote store c t n).2 cid = some conv2 ∧
      Even conv2.messages.length := by
  cases hc : storeGet store c with
  | none => exact ⟨conv, by simp [processMessage, hc, h], he⟩
  | some convc =>
      obtain ⟨m2, hst, _⟩ := processMessage_shape remote store c t n convc hc
      by_cases hq : cid = c
      · subst hq
        rw [h] at hc
        injection hc with hc
        subst hc
        refine ⟨_, by rw [hst, storeGet_storeSet_self], ?_⟩
        obtain ⟨r, hr⟩ := he
        exact ⟨r + 1, by simp [List.length_append]; omega⟩
      · exact ⟨conv, by rw [hst, storeGet_storeSet_ne _ _ _ _ hq]; exact h, he⟩

/-- Helper: parity of a present conversation's message count is preserved by any
sequence of completed calls. -/
theorem runCalls_parity (remote : String → List PreparedMsg → Except String String)
    (cid : String) :
    ∀ (calls : List (String × String × Nat)) (store : ConvStore) (conv : Conversation),
      storeGet store cid = some conv → Even conv.messages.length →
      ∃ conv2, storeGet (runCalls remote store calls) cid = some conv2 ∧
        Even conv2.messages.length
  | [], _, conv, h, he => ⟨conv, h, he⟩
  | c :: cs, store, conv, h, he => by
      obtain ⟨conv1, h1, he1⟩ :=
        processMessage_parity remote store c.1 c.2.1 c.2.2 cid conv h he
      exact runCalls_parity remote cid cs _ conv1 h1 he1

/-- C1: for every conversation id present in the store, each `processMessage` call
appends exactly one `user` message followed by exactly one further message — an
`assistant` message when generation succeeds, a `system` message marked `isError`
when it fails (the error then being re-raised) — and the user message is recorded
even on failure; consequently a conversation whose message count is even (e.g. one
created empty) keeps an even message count after any number of completed calls. -/
theorem C1_processMessage_appends_pair
    (remote : String → List PreparedMsg → Except String String)
    (store : ConvStore) (cid text : String) (now : Nat) (conv : Conversation)
    (h : storeGet store cid = some conv) :
    (∃ m2 : Message,
      (processMessage remote store cid text now).2 =
        storeSet store cid
          { conv with messages := conv.messages ++ [⟨Role.user, text, now, false⟩, m2],
                      updatedAt := now }
      ∧ ((m2.role = Role.assistant ∧ m2.isError = false ∧
            (processMessage remote store cid text now).1 =
              Except.ok ⟨m2.content, cid, conv.model.id⟩)
         ∨ (∃ e, m2.role = Role.system ∧ m2.isError = true ∧
              m2.content = "Error: " ++ e ∧
              (processMessage remote store cid text now).1 = Except.error e)))
    ∧ (Even conv.messages.length →
        ∀ calls : List (String × String × Nat),
          ∃ conv2, storeGet (runCalls remote store calls) cid = some conv2 ∧
            Even conv2.messages.length) :=
  ⟨processMessage_shape remote store cid text now conv h,
   fun he calls => runCalls_parity remote cid calls store conv h he⟩

/-- Concrete data for the C1 witness: a remote oracle that always fails, and a store
holding one empty conversation. -/
def wRemote : String → List PreparedMsg → Except String String :=
  fun _ _ => Except.error ("boom")

def wConv : Conversation := ⟨"c", ⟨"default", "Default Model", none⟩, [], 0, 0⟩

def wStore : ConvStore := [("c", wConv)]

/-- Witness for C1 at a concrete store and call. -/
theorem C1_witness :
    storeGet wStore "c" = some wConv
    ∧ ((∃ m2 : Message,
      (processMessage wRemote wStore "c" "hi" 1).2 =
        storeSet wStore "c"
          { wConv with messages := wConv.messages ++ [⟨Role.user, "hi", 1, false⟩, m2],
                       updatedAt := 1 }
      ∧ ((m2.role = Role.assistant ∧ m2.isError = false ∧
            (processMessage wRemote wStore "c" "hi" 1).1 =
              Except.ok ⟨m2.content, "c", wConv.model.id⟩)
         ∨ (∃ e, m2.role = Role.system ∧ m2.isError = true ∧
              m2.content = "Error: " ++ e ∧
              (processMessage wRemote wStore "c" "hi" 1).1 = Except.error e)))
    ∧ (Even wConv.messages.length →
        ∀ calls : List (String × String × Nat),
          ∃ conv2, storeGet (runCalls wRemote wStore calls) "c" = some conv2 ∧
            Even conv2.messages.length)) :=
  ⟨rfl, C1_processMessage_appends_pair wRemote wStore "c" "hi" 1 wConv rfl⟩

/-- Remote oracle for the C2 scenario; the default model has no provider, so it is
never consulted. -/
def remoteUnused : String → List PreparedMsg → Except String String :=
  fun _ _ => Except.error ("unused")

/-- The conversation created in the C2 scenario. -/
def c2Conv : Conversation := ⟨"conv-1", ⟨"default", "Default Model", none⟩, [], 0, 0⟩

/-- C2: creating a conversation with `modelId="default"` yields an empty message list,
and `processMessage(id, "Hello")` then returns a result whose `conversationId` is the
created id and whose `response` is a non-empty string, after which the conversation
holds exactly 2 messages. -/
theorem C2_example_scenario :
    createConversation defaultRegistry [] (some "default") "default" "conv-1" 0 =
      Except.ok (c2Conv, [("conv-1", c2Conv)])
    ∧ c2Conv.messages = []
    ∧ (processMessage remoteUnused [("conv-1", c2Conv)] "conv-1" "Hello" 1).1 =
        Except.ok ⟨"Model \"default\" received: Hello", "conv-1", "default"⟩
    ∧ "Model \"default\" received: Hello" ≠ ""
    ∧ (storeGet (processMessage remoteUnused [("conv-1", c2Conv)] "conv-1" "Hello" 1).2
          "conv-1").map (fun c => c.messages.length) = some 2 :=
  ⟨rfl, rfl, rfl, by decide, rfl⟩

/-- C8: `processMessage` on an id that is not in the store throws
`Conversation not found` and returns the store exactly as it was — no conversation
created, no message appended, no `updatedAt` changed. -/
theorem C8_missing_conversation_is_atomic
    (remote : String → List PreparedMsg → Except String String)
    (store : ConvStore) (cid text : String) (now : Nat)
    (h : storeGet store cid = none) :
    processMessage remote store cid text now =
      (Except.error ("Conversation not found"), store) := by
  simp [processMessage, h]

/-- Witness for C8 at a concrete store and unknown id. -/
theorem C8_witness :
    storeGet wStore "missing" = none
    ∧ processMessage wRemote wStore "missing" "Hello" 7 =
        (Except.error ("Conversation not found"), wStore) :=
  ⟨rfl, C8_missing_conversation_is_atomic wRemote wStore "missing" "Hello" 7 rfl⟩

/-! ## ConcurrencyToolkit `withRetry` — `src/unnamed/part_004` lines 169-198

The combinator is embedded as a pure trace function: `task attempt` is the outcome of
the attempt-th execution of `asyncFunc` (an oracle over attempt numbers), `jitter
attempt` is the `Math.random() * 1000` sample drawn after that attempt, and the trace
records the final outcome, the list of backoff delays actually slept (in order), and
how many times the task was invoked.  `Except.error none` models JS `throw lastError`
with `lastError` still `undefined`. -/

/-- Trace of one `withRetry` run. -/
structure RetryTrace (E A : Type) where
  result : Except (Option E) A
  delays : List Rat
  invocations : Nat

/-- The `for (attempt = 1; attempt <= maxRetries; attempt++)` loop of `withRetry`.
`rem` is the number of attempts still allowed including the current one (so
`attempt === maxRetries` is `rem = 1` on entry, i.e. `rem = 0` after matching
`rem + 1`); `ds` accumulates slept delays in reverse. -/
def withRetryGo {E A : Type} (task : Nat → Except E A) (shouldRetry : E → Bool)
    (initialDelay : Rat) (jitter : Nat → Rat) :
    Nat → Nat → Option E → List Rat → Nat → RetryTrace E A
  | 0, _, lastError, ds, inv => ⟨Except.error lastError, ds.reverse, inv⟩
  | rem + 1, attempt, _, ds, inv =>
      match task attempt with
      | Except.ok v => ⟨Except.ok v, ds.reverse, inv + 1⟩
      | Except.error e =>
          if shouldRetry e = false ∨ rem = 0 then
            ⟨Except.error (some e), ds.reverse, inv + 1⟩
          else
            withRetryGo task shouldRetry initialDelay jitter rem (attempt + 1) (some e)
              ((initialDelay * 2 ^ (attempt - 1) + jitter attempt) :: ds) (inv + 1)

/-- `withRetry(asyncFunc, maxRetries, initialDelay, shouldRetry)`
(part_004 lines 169-198). -/
def withRetry {E A : Type} (task : Nat → Except E A) (maxRetries : Int)
    (initialDelay : Rat) (shouldRetry : E → Bool) (jitter : Nat → Rat) : RetryTrace E A :=
  withRetryGo task shouldRetry initialDelay jitter maxRetries.toNat 1 none [] 0

/-- Helper: the loop executes the task at most `rem` more times. -/
theorem withRetryGo_invocations_le {E A : Type} (task : Nat → Except E A)
    (shouldRetry : E → Bool) (initialDelay : Rat) (jitter : Nat → Rat) :
    ∀ (rem attempt : Nat) (le : Option E) (ds : List Rat) (inv : Nat),
      (withRetryGo task shouldRetry initialDelay jitter rem attempt le ds inv).invocations
        ≤ inv + rem := by
  intro rem
  induction rem with
  | zero => intro attempt le ds inv; simp [withRetryGo]
  | succ r ih =>
      intro attempt le ds inv
      cases ht : task attempt with
      | ok v => simp [withRetryGo, ht]
      | error e =>
          by_cases hb : shouldRetry e = false ∨ r = 0
          · simp [withRetryGo, ht, hb]
          · simp only [withRetryGo, ht, if_neg hb]
            calc (withRetryGo task shouldRetry initialDelay jitter r (attempt + 1)
                    (some e) _ (inv + 1)).invocations
                ≤ (inv + 1) + r := ih _ _ _ _
              _ ≤ inv + (r + 1) := by omega

/-- Helper: every recorded delay follows the backoff schedule
`initialDelay * 2^k + jitter (k+1)` where `k` is the delay's position. -/
theorem withRetryGo_delays {E A : Type} (task : Nat → Except E A)
    (shouldRetry : E → Bool) (initialDelay : Rat) (jitter : Nat → Rat) :
    ∀ (rem attempt : Nat) (le : Option E) (ds : List Rat) (inv : Nat),
      attempt = ds.length + 1 →
      ds.reverse = (List.range ds.length).map
        (fun k => initialDelay * 2 ^ k + jitter (k + 1)) →
      (withRetryGo task shouldRetry initialDelay jitter rem attempt le ds inv).delays =
        (List.range
          (withRetryGo task shouldRetry initialDelay jitter rem attempt le ds inv).delays.length).map
          (fun k => initialDelay * 2 ^ k + jitter (k + 1)) := by
  intro rem
  induction rem with
  | zero =>
      intro attempt le ds inv _ hds
      simpa [withRetryGo] using hds
  | succ r ih =>
      intro attempt le ds inv ha hds
      cases ht : task attempt with
      | ok v => simpa [withRetryGo, ht] using hds
      | error e =>
          by_cases hb : shouldRetry e = false ∨ r = 0
          · simp only [withRetryGo, ht, if_pos hb]
            simpa using hds
          · simp only [withRetryGo, ht, if_neg hb]
            refine ih (attempt + 1) (some e)
              ((initialDelay * 2 ^ (attempt - 1) + jitter attempt) :: ds) (inv + 1)
              (by simp [ha]) ?_
            have h2 : initialDelay * 2 ^ (attempt - 1) + jitter attempt =
                initialDelay * 2 ^ ds.length + jitter (ds.length + 1) := by
              rw [ha]; simp
            simp [h2, List.range_succ, hds]

/-- Helper: if every attempt from `attempt` to `a - 1` fails with a retryable error and
attempt `a` (still within budget) fails with a non-retryable one, the loop stops at
attempt `a` and re-raises that error. -/
theorem withRetryGo_stops {E A : Type} (task : Nat → Except E A)
    (shouldRetry : E → Bool) (initialDelay : Rat) (jitter : Nat → Rat) :
    ∀ (rem attempt : Nat) (le : Option E) (ds : List Rat) (inv : Nat) (a : Nat) (e : E),
      attempt ≤ a → a < attempt + rem →
      (∀ b, attempt ≤ b → b < a → ∃ eb, task b = Except.error eb ∧ shouldRetry eb = true) →
      task a = Except.error e → shouldRetry e = false →
      (withRetryGo task shouldRetry initialDelay jitter rem attempt le ds inv).invocations
          = inv + (a - attempt + 1)
        ∧ (withRetryGo task shouldRetry initialDelay jitter rem attempt le ds inv).result
          = Except.error (some e) := by
  intro rem
  induction rem with
  | zero => intro attempt le ds inv a e h1 h2 _ _ _; omega
  | succ r ih =>
      intro attempt le ds inv a e h1 h2 hpre hta hsr
      by_cases hea : attempt = a
      · subst hea
        have hb : shouldRetry e = false ∨ r = 0 := Or.inl hsr
        constructor <;> simp [withRetryGo, hta, hb]
      · have hlt : attempt < a := lt_of_le_of_ne h1 hea
        obtain ⟨eb, htb, hsb⟩ := hpre attempt le_rfl hlt
        have hr : r ≠ 0 := by omega
        have hb : ¬(shouldRetry eb = false ∨ r = 0) := by
          simp [hsb, hr]
        have := ih (attempt + 1) (some eb)
          ((initialDelay * 2 ^ (attempt - 1) + jitter attempt) :: ds) (inv + 1) a e
          (by omega) (by omega)
          (fun b hb1 hb2 => hpre b (by omega) hb2) hta hsr
        constructor
        · simp only [withRetryGo, htb, if_neg hb]
          rw [this.1]; omega
        · simp only [withRetryGo, htb, if_neg hb]
          exact this.2

/-- Helper: if every attempt in the remaining budget fails with a retryable error, the
loop exhausts the budget and re-raises the error of the last attempt. -/
theorem withRetryGo_exhausts {E A : Type} (task : Nat → Except E A)
    (shouldRetry : E → Bool) (initialDelay : Rat) (jitter : Nat → Rat) (err : Nat → E) :
    ∀ (rem attempt : Nat) (le : Option E) (ds : List Rat) (inv : Nat),
      1 ≤ rem →
      (∀ b, attempt ≤ b → b < attempt + rem → task b = Except.error (err b)) →
      (∀ b, shouldRetry (err b) = true) →
      (withRetryGo task shouldRetry initialDelay jitter rem attempt le ds inv).result
        = Except.error (some (err (attempt + rem - 1))) := by
  intro rem
  induction rem with
  | zero => intro attempt le ds inv h1 _ _; omega
  | succ r ih =>
      intro attempt le ds inv _ hall hsr
      have hta : task attempt = Except.error (err attempt) :=
        hall attempt le_rfl (by omega)
      by_cases hr : r = 0
      · subst hr
        have hb : shouldRetry (err attempt) = false ∨ (0:Nat) = 0 := Or.inr rfl
        simp [withRetryGo, hta, hb]
      · have hb : ¬(shouldRetry (err attempt) = false ∨ r = 0) := by
          simp [hsr attempt, hr]
        simp only [withRetryGo, hta, if_neg hb]
        have hrec := ih (attempt + 1) (some (err attempt))
          ((initialDelay * 2 ^ (attempt - 1) + jitter attempt) :: ds) (inv + 1)
          (by omega) (fun b hb1 hb2 => hall b (by omega) (by omega)) hsr
        have hidx : attempt + 1 + r - 1 = attempt + (r + 1) - 1 := by omega
        rw [hrec, hidx]

/-- Task oracle that fails on every attempt (used by the C3 counterexample). -/
def alwaysFail : Nat → Except String String := fun _ => Except.error ("boom")

/-- C3 counterexample: run `withRetry` with `maxAttempts = 3`, `initialDelay = 100`,
always-retry and zero jitter on an always-failing task.  The recorded delay before
attempt 2 (the first recorded delay) is 100 ms, but the claim's formula
`initialDelay * 2^(k-1) + jitter` for `k = 2` gives `200 + jitter`, which differs from
100 for every nonnegative jitter — so the claimed exponent is off by one. -/
theorem C3_counterexample :
    (withRetry alwaysFail 3 100 (fun _ => true) (fun _ => 0)).delays.length = 2
    ∧ (withRetry alwaysFail 3 100 (fun _ => true) (fun _ => 0)).delays.getD 0 0 = 100
    ∧ ∀ j : Rat, 0 ≤ j → (100 : Rat) ≠ 100 * 2 ^ (2 - 1) + j := by
  refine ⟨rfl, ?_, ?_⟩
  · have h : (withRetry alwaysFail 3 100 (fun _ => true) (fun _ => 0)).delays.getD 0 0 =
        (100 : Rat) * 2 ^ (1 - 1 : Nat) + 0 := rfl
    rw [h]
    norm_num
  · intro j hj h
    norm_num at h
    linarith

/-- C3 (amended): `withRetry` executes the task at most `maxAttempts` times; the delay
before attempt `k` (the `(k-2)`-th recorded delay, `k ≥ 2`) is
`initialDelay * 2^(k-2)` plus the jitter sample (uniform in `[0, 1000)` ms, supplied
here as any oracle within those bounds); it stops retrying as soon as `shouldRetry`
returns false on an attempt's error, re-raising that error; and when all attempts fail
with retryable errors it fails with the error of the last attempt. -/
theorem C3_amended_withRetry {E A : Type} (task : Nat → Except E A) (maxRetries : Int)
    (initialDelay : Rat) (shouldRetry : E → Bool) (jitter : Nat → Rat) (err : Nat → E)
    (hj : ∀ k, 0 ≤ jitter k ∧ jitter k < 1000) :
    (withRetry task maxRetries initialDelay shouldRetry jitter).invocations
        ≤ maxRetries.toNat
    ∧ (∀ k, k <
          (withRetry task maxRetries initialDelay shouldRetry jitter).delays.length →
        ∃ jv, 0 ≤ jv ∧ jv < 1000 ∧
          (withRetry task maxRetries initialDelay shouldRetry jitter).delays.getD k 0 =
            initialDelay * 2 ^ k + jv)
    ∧ (∀ a e, 1 ≤ a → a ≤ maxRetries.toNat →
        (∀ b, 1 ≤ b → b < a → ∃ eb, task b = Except.error eb ∧ shouldRetry eb = true) →
        task a = Except.error e → shouldRetry e = false →
        (withRetry task maxRetries initialDelay shouldRetry jitter).invocations = a
          ∧ (withRetry task maxRetries initialDelay shouldRetry jitter).result
            = Except.error (some e))
    ∧ (1 ≤ maxRetries.toNat →
        (∀ b, 1 ≤ b → b ≤ maxRetries.toNat → task b = Except.error (err b)) →
        (∀ b, shouldRetry (err b) = true) →
        (withRetry task maxRetries initialDelay shouldRetry jitter).result
          = Except.error (some (err maxRetries.toNat))) := by
  refine ⟨?_, ?_, ?_, ?_⟩
  · simpa [withRetry] using
      withRetryGo_invocations_le task shouldRetry initialDelay jitter
        maxRetries.toNat 1 none [] 0
  · intro k hk
    have hch := withRetryGo_delays task shouldRetry initialDelay jitter
      maxRetries.toNat 1 none [] 0 (by simp) (by simp)
    refine ⟨jitter (k + 1), (hj (k + 1)).1, (hj (k + 1)).2, ?_⟩
    unfold withRetry at hk ⊢
    rw [hch]
    rw [hch] at hk
    simp only [List.length_map, List.length_range] at hk
    rw [List.getD_eq_get _ _ (by simpa using hk)]
    simp
  · intro a e h1 h2 hpre hta hsr
    have := withRetryGo_stops task shouldRetry initialDelay jitter
      maxRetries.toNat 1 none [] 0 a e h1 (by omega)
      (fun b hb1 hb2 => hpre b hb1 hb2) hta hsr
    exact ⟨by rw [withRetry, this.1]; omega, this.2⟩
  · intro hmr hall hsr
    have hrec := withRetryGo_exhausts task shouldRetry initialDelay jitter err
      maxRetries.toNat 1 none [] 0 hmr
      (fun b hb1 hb2 => hall b hb1 (by omega)) hsr
    have hidx : 1 + maxRetries.toNat - 1 = maxRetries.toNat := by omega
    rw [withRetry, hrec, hidx]

/-- Witness for the amended C3 at a concrete run: always-failing task, 3 attempts,
initial delay 100, constant jitter 5. -/
theorem C3_amended_witness :
    ((0:Rat) ≤ 5 ∧ (5:Rat) < 1000)
    ∧ ((withRetry alwaysFail 3 100 (fun _ => true) (fun _ => 5)).invocations
        ≤ (3:Int).toNat
    ∧ (∀ k, k <
          (withRetry alwaysFail 3 100 (fun _ => true) (fun _ => 5)).delays.length →
        ∃ jv, 0 ≤ jv ∧ jv < 1000 ∧
          (withRetry alwaysFail 3 100 (fun _ => true) (fun _ => 5)).delays.getD k 0 =
            100 * 2 ^ k + jv)
    ∧ (∀ a e, 1 ≤ a → a ≤ (3:Int).toNat →
        (∀ b, 1 ≤ b → b < a →
          ∃ eb, alwaysFail b = Except.error eb ∧ (fun (_ : String) => true) eb = true) →
        alwaysFail a = Except.error e → (fun (_ : String) => true) e = false →
        (withRetry alwaysFail 3 100 (fun _ => true) (fun _ => 5)).invocations = a
          ∧ (withRetry alwaysFail 3 100 (fun _ => true) (fun _ => 5)).result
            = Except.error (some e))
    ∧ (1 ≤ (3:Int).toNat →
        (∀ b, 1 ≤ b → b ≤ (3:Int).toNat →
          alwaysFail b = Except.error ((fun (_ : Nat) => "boom") b)) →
        (∀ b, (fun (_ : String) => true) ((fun (_ : Nat) => "boom") b) = true) →
        (withRetry alwaysFail 3 100 (fun _ => true) (fun _ => 5)).result
          = Except.error (some ((fun (_ : Nat) => "boom") (3:Int).toNat)))) :=
  ⟨⟨by norm_num, by norm_num⟩,
   C3_amended_withRetry alwaysFail 3 100 (fun _ => true) (fun _ => 5)
     (fun _ => "boom") (fun _ => ⟨by norm_num, by norm_num⟩)⟩

/-- C10: calling `withRetry` with `maxRetries ≤ 0` never enters the attempt loop: the
task is never invoked, no delay is slept, and the saved `lastError` — still
`undefined` — is thrown (`Except.error none`, not a real error value). -/
theorem C10_nonpositive_maxRetries {E A : Type} (task : Nat → Except E A)
    (maxRetries : Int) (initialDelay : Rat) (shouldRetry : E → Bool)
    (jitter : Nat → Rat) (h : maxRetries ≤ 0) :
    withRetry task maxRetries initialDelay shouldRetry jitter =
      ⟨Except.error none, [], 0⟩ := by
  have h0 : maxRetries.toNat = 0 := Int.toNat_of_nonpos h
  simp [withRetry, h0, withRetryGo]

/-- Witness for C10 at `maxRetries = -2`. -/
theorem C10_witness :
    (-2 : Int) ≤ 0
    ∧ withRetry (fun _ => Except.ok (1 : Nat)) (-2) 50 (fun (_ : Unit) => true)
        (fun _ => 0) = ⟨Except.error none, [], 0⟩ :=
  ⟨by norm_num,
   C10_nonpositive_maxRetries (fun _ => Except.ok (1 : Nat)) (-2) 50
     (fun (_ : Unit) => true) (fun _ => 0) (by norm_num)⟩

/-! ## LocalProcessRunner output extraction — `src/Grimrold/core/localModels.js` 218-226

The `close` handler of `LocalModelManager.runModel` runs
`output.split('assistant:').pop().trim()` on exit code 0 and rejects with
`Model process exited with code ...` otherwise.  JS strings are embedded as `List Char`
and `String.prototype.split` as a left-to-right non-overlapping scan (`jsSplitF`, with
fuel equal to the scanned length so that the definition is structural and fully
evaluable). -/

/-- JS `String.prototype.split(sep)` over character lists (non-empty separator):
scan left to right, cutting at each non-overlapping occurrence of `sep`.
`fuel` bounds the number of scan steps; `fuel ≥ s.length` is always enough. -/
def jsSplitF (sep : List Char) : Nat → List Char → List (List Char)
  | _, [] => [[]]
  | 0, s => [s]
  | fuel + 1, c :: rest =>
      if sep ≠ [] ∧ sep.isPrefixOf (c :: rest) then
        [] :: jsSplitF sep fuel ((c :: rest).drop sep.length)
      else
        match jsSplitF sep fuel rest with
        | [] => [[c]]
        | h :: t => (c :: h) :: t

/-- JS `split` at adequate fuel. -/
def jsSplit (sep s : List Char) : List (List Char) := jsSplitF sep s.length s

/-- JS whitespace test for `String.prototype.trim` (restricted to the ASCII whitespace
that can occur in process output). -/
def isJsWs (c : Char) : Bool :=
  c == ' ' || c == '\n' || c == '\t' || c == '\r'

/-- JS `String.prototype.trim` over character lists. -/
def jsTrim (s : List Char) : List Char :=
  ((s.dropWhile isJsWs).reverse.dropWhile isJsWs).reverse

/-- The role delimiter used by `runModel`. -/
def sepAssistant : List Char := "assistant:".toList

/-- The `close` handler of `LocalModelManager.runModel` (localModels.js lines 218-226):
on exit code 0 resolve `output.split('assistant:').pop().trim()`, otherwise reject. -/
def runModelClose (code : Int) (output : List Char) : Except String (List Char) :=
  if code = 0 then
    Except.ok (jsTrim ((jsSplit sepAssistant output).getLastD []))
  else
    Except.error ("Model process exited with code " ++ toString code)

/-- Helper: the split result is never the empty list. -/
theorem jsSplitF_ne_nil (sep : List Char) (fuel : Nat) (s : List Char) :
    jsSplitF sep fuel s ≠ [] := by
  match fuel, s with
  | _, [] => simp [jsSplitF]
  | 0, c :: rest => simp [jsSplitF]
  | fuel + 1, c :: rest =>
      unfold jsSplitF
      split
      · simp
      · split <;> simp

/-- Helper: unfolding of `jsSplitF` on a cons cell with positive fuel. -/
theorem jsSplitF_cons (sep : List Char) (f : Nat) (c : Char) (rest : List Char) :
    jsSplitF sep (f + 1) (c :: rest) =
      if sep ≠ [] ∧ sep.isPrefixOf (c :: rest) then
        [] :: jsSplitF sep f ((c :: rest).drop sep.length)
      else
        match jsSplitF sep f rest with
        | [] => [[c]]
        | h :: t => (c :: h) :: t := rfl

/-- Helper: a string not containing the separator is returned whole. -/
theorem jsSplitF_no_occurrence (sep : List Char) (hsep : sep ≠ []) :
    ∀ (fuel : Nat) (s : List Char), s.length ≤ fuel → ¬ sep <:+: s →
      jsSplitF sep fuel s = [s] := by
  intro fuel
  induction fuel with
  | zero =>
      intro s hf _
      match s, hf with
      | [], _ => rfl
  | succ f ih =>
      intro s hf hinf
      match s with
      | [] => rfl
      | c :: rest =>
          have hpre : ¬ sep.isPrefixOf (c :: rest) := by
            intro hp
            exact hinf (List.isPrefixOf_iff_prefix.mp hp).isInfix
          have hcond : ¬ (sep ≠ [] ∧ sep.isPrefixOf (c :: rest)) := by
            intro hc
            exact hpre hc.2
          have hrest : ¬ sep <:+: rest := by
            intro hi
            obtain ⟨s1, t1, hst⟩ := hi
            exact hinf ⟨c :: s1, t1, by simp [hst]⟩
          have hrl : rest.length ≤ f := by
            simp at hf
            omega
          rw [jsSplitF_cons, if_neg hcond, ih rest hrl hrest]

/-- Helper: a string containing the separator splits into at least two pieces. -/
theorem jsSplitF_two_pieces (sep : List Char) (hsep : sep ≠ []) :
    ∀ (fuel : Nat) (s : List Char), s.length ≤ fuel → sep <:+: s →
      2 ≤ (jsSplitF sep fuel s).length := by
  intro fuel
  induction fuel with
  | zero =>
      intro s hf hinf
      match s, hf with
      | [], _ => exact absurd (List.infix_nil.mp hinf) hsep
  | succ f ih =>
      intro s hf hinf
      match s with
      | [] => exact absurd (List.infix_nil.mp hinf) hsep
      | c :: rest =>
          by_cases hpre : sep.isPrefixOf (c :: rest)
          · have hcond : sep ≠ [] ∧ sep.isPrefixOf (c :: rest) := ⟨hsep, hpre⟩
            rw [jsSplitF_cons, if_pos hcond]
            have hpos := List.length_pos.mpr
              (jsSplitF_ne_nil sep f ((c :: rest).drop sep.length))
            simp only [List.length_cons]
            omega
          · have hcond : ¬ (sep ≠ [] ∧ sep.isPrefixOf (c :: rest)) := by
              intro hc
              exact hpre hc.2
            have hrest : sep <:+: rest := by
              rcases List.infix_cons_iff.mp hinf with hp | hi
              · exact absurd (List.isPrefixOf_iff_prefix.mpr hp) hpre
              · exact hi
            have hrl : rest.length ≤ f := by
              simp at hf
              omega
            have h2 := ih rest hrl hrest
            rw [jsSplitF_cons, if_neg hcond]
            cases hx : jsSplitF sep f rest with
            | nil => rw [hx] at h2; simp at h2
            | cons a t =>
                rw [hx] at h2
                simpa using h2

/-- A separator with no proper border: no nonempty proper suffix of it is also a
prefix.  This rules out overlapping occurrences, so the non-overlapping scan of
`split` finds the genuinely last occurrence. -/
def BorderFree (sep : List Char) : Prop :=
  ∀ k, k < sep.length → 0 < k → sep.drop k ≠ sep.take (sep.length - k)

/-- Helper: `'assistant:'` has no proper border. -/
theorem sepAssistant_borderFree : BorderFree sepAssistant := by
  unfold BorderFree
  decide

/-- Helper: on input `x ++ sep ++ y` with no occurrence of `sep` in `y`, the last piece
of the split is exactly `y` (this needs `sep` border-free: an occurrence found while
scanning `x` can never consume into the displayed `sep` block). -/
theorem jsSplitF_getLast (sep : List Char) (hsep : sep ≠ []) (hbf : BorderFree sep)
    (y : List Char) (hy : ¬ sep <:+: y) :
    ∀ (fuel : Nat) (x : List Char), (x ++ sep ++ y).length ≤ fuel →
      (jsSplitF sep fuel (x ++ sep ++ y)).getLast? = some y := by
  intro fuel
  induction fuel with
  | zero =>
      intro x hf
      exfalso
      have h1 : 0 < sep.length := List.length_pos.mpr hsep
      have h2 : (x ++ sep ++ y).length = x.length + sep.length + y.length := by
        simp [List.length_append]
        omega
      omega
  | succ f ih =>
      intro x hf
      match x with
      | [] =>
          cases sep with
          | nil => exact absurd rfl hsep
          | cons c sep' =>
              have hform : ([] : List Char) ++ (c :: sep') ++ y = c :: (sep' ++ y) := by
                simp
              rw [hform, jsSplitF_cons]
              have hpre : (c :: sep').isPrefixOf (c :: (sep' ++ y)) := by
                rw [List.isPrefixOf_iff_prefix]
                exact ⟨y, by simp⟩
              rw [if_pos ⟨by simp, hpre⟩]
              have hdrop : (c :: (sep' ++ y)).drop (c :: sep').length = y := by
                rw [List.length_cons, List.drop_succ_cons, List.drop_left]
              rw [hdrop]
              have hylen : y.length ≤ f := by
                rw [hform] at hf
                simp [List.length_append] at hf
                omega
              rw [jsSplitF_no_occurrence (c :: sep') (by simp) f y hylen hy]
              rfl
      | cx :: x' =>
          by_cases hpre : sep.isPrefixOf ((cx :: x') ++ sep ++ y)
          · by_cases hxl : sep.length ≤ (cx :: x').length
            · -- the found occurrence lies inside x: drop it and recurse
              have hform : (cx :: x') ++ sep ++ y = cx :: (x' ++ sep ++ y) := by simp
              have hpre2 : sep.isPrefixOf (cx :: (x' ++ sep ++ y)) := by
                rw [← hform]
                exact hpre
              rw [hform, jsSplitF_cons, if_pos ⟨hsep, hpre2⟩]
              have hdrop : (cx :: (x' ++ sep ++ y)).drop sep.length =
                  ((cx :: x').drop sep.length) ++ sep ++ y := by
                rw [← hform, List.append_assoc, List.drop_append_of_le_length hxl,
                  ← List.append_assoc]
              rw [hdrop]
              have hlen : (((cx :: x').drop sep.length) ++ sep ++ y).length ≤ f := by
                have h1 : 0 < sep.length := List.length_pos.mpr hsep
                rw [hform] at hf
                simp [List.length_append] at hf ⊢
                omega
              have hin := ih ((cx :: x').drop sep.length) hlen
              cases hx : jsSplitF sep f (((cx :: x').drop sep.length) ++ sep ++ y) with
              | nil => exact absurd hx (jsSplitF_ne_nil sep f _)
              | cons a t =>
                  rw [hx] at hin
                  rw [List.getLast?_cons_cons]
                  exact hin
            · -- a match straddling x and sep: impossible, sep is border-free
              exfalso
              push_neg at hxl
              have hxpos : 0 < (cx :: x').length := by simp
              have hp : sep <+: (cx :: x') ++ sep ++ y := List.isPrefixOf_iff_prefix.mp hpre
              have htake : sep = ((cx :: x') ++ sep ++ y).take sep.length := by
                obtain ⟨t, ht⟩ := hp
                rw [← ht]
                simp
              have htake2 : ((cx :: x') ++ sep ++ y).take sep.length =
                  (cx :: x') ++ sep.take (sep.length - (cx :: x').length) := by
                rw [List.append_assoc, List.take_append_eq_append_take,
                  List.take_of_length_le (le_of_lt hxl),
                  List.take_append_of_le_length (by omega)]
              have hsep_eq : sep = (cx :: x') ++ sep.take (sep.length - (cx :: x').length) :=
                htake.trans htake2
              have hdropped : sep.drop (cx :: x').length =
                  sep.take (sep.length - (cx :: x').length) := by
                conv_lhs => rw [hsep_eq]
                exact List.drop_left (cx :: x') _
              exact hbf (cx :: x').length hxl hxpos hdropped
          · -- no match at the head: step one character
            have hcond : ¬ (sep ≠ [] ∧ sep.isPrefixOf ((cx :: x') ++ sep ++ y)) := by
              intro hc
              exact hpre hc.2
            have hform : (cx :: x') ++ sep ++ y = cx :: (x' ++ sep ++ y) := by simp
            have hcond2 : ¬ (sep ≠ [] ∧ sep.isPrefixOf (cx :: (x' ++ sep ++ y))) := by
              rw [← hform]
              exact hcond
            have hlen : (x' ++ sep ++ y).length ≤ f := by
              rw [hform] at hf
              simp [List.length_append] at hf ⊢
              omega
            have hin := ih x' hlen
            have h2 := jsSplitF_two_pieces sep hsep f (x' ++ sep ++ y) hlen ⟨x', y, rfl⟩
            rw [hform, jsSplitF_cons, if_neg hcond2]
            cases hx : jsSplitF sep f (x' ++ sep ++ y) with
            | nil => exact absurd hx (jsSplitF_ne_nil sep f _)
            | cons a t =>
                rw [hx] at hin h2
                match t, hin, h2 with
                | b :: t', hin2, _ =>
                    rw [List.getLast?_cons_cons] at hin2
                    show ((cx :: a) :: b :: t').getLast? = some y
                    rw [List.getLast?_cons_cons]
                    exact hin2

/-- C4 counterexample: with exit code 0 and output `no marker here` (the delimiter
`assistant:` does not occur), `runModel` resolves the whole trimmed output instead of
failing — there is no `MalformedOutput` error path at all.  Moreover on output
`assistant: hi ` the resolved text is `hi`, not the exact post-delimiter portion
` hi ` — the code trims. -/
theorem C4_counterexample :
    ¬ (sepAssistant <:+: "no marker here".toList)
    ∧ runModelClose 0 ("no marker here".toList) = Except.ok ("no marker here".toList)
    ∧ runModelClose 0 ("assistant: hi ".toList) = Except.ok ("hi".toList) :=
  ⟨by decide, rfl, rfl⟩

/-- C4 (amended): on a normal exit (code 0) the run resolves the trimmed portion of
captured stdout following the last occurrence of `assistant:` when the delimiter
occurs, and resolves the whole trimmed output when it does not (no `MalformedOutput`
failure exists). -/
theorem C4_amended_extraction (x y out : List Char) :
    (¬ sepAssistant <:+: out → runModelClose 0 out = Except.ok (jsTrim out))
    ∧ (¬ sepAssistant <:+: y →
        runModelClose 0 (x ++ sepAssistant ++ y) = Except.ok (jsTrim y)) := by
  constructor
  · intro h
    have hsp := jsSplitF_no_occurrence sepAssistant (by decide) out.length out le_rfl h
    show Except.ok (jsTrim ((jsSplit sepAssistant out).getLastD [])) =
      Except.ok (jsTrim out)
    rw [jsSplit, hsp]
    rfl
  · intro h
    have hlast := jsSplitF_getLast sepAssistant (by decide) sepAssistant_borderFree y h
      (x ++ sepAssistant ++ y).length x le_rfl
    have hgd : (jsSplit sepAssistant (x ++ sepAssistant ++ y)).getLastD [] = y := by
      rw [List.getLastD_eq_getLast?, jsSplit, hlast]
      rfl
    show Except.ok
        (jsTrim ((jsSplit sepAssistant (x ++ sepAssistant ++ y)).getLastD [])) =
      Except.ok (jsTrim y)
    rw [hgd]

/-- Witness for the amended C4 at concrete output `log assistant: one assistant: two `. -/
theorem C4_amended_witness :
    ¬ (sepAssistant <:+: " two ".toList)
    ∧ runModelClose 0 (("log assistant: one ".toList ++ sepAssistant ++ " two ".toList))
        = Except.ok (jsTrim (" two ".toList)) :=
  ⟨by decide,
   (C4_amended_extraction ("log assistant: one ".toList) (" two ".toList) []).2
     (by decide)⟩

/-! ## LocalProcessRunner process tracking — `src/Grimrold/core/localModels.js` 193-235

`runModel` spawns a process per request and then executes
`this.processes.set(model.id, process)` (line 233) on the manager's shared `processes`
map.  There is no admission semaphore anywhere in `runModel` (the module imports only
`withRetry` from the async utilities and never calls `createSemaphore`), so two
concurrent requests for the same model both spawn immediately and the later `set`
replaces the earlier request's tracked handle.  Note that the registered model records
(built in `setupModels`, lines 114-120, by spreading configs that have no `id` field)
carry `id = undefined`, embedded as `none`. -/

/-- A registered local model as stored in `this.models` by `setupModels`: the config
spread carries no `id` field, so `model.id` is `undefined` (`none`). -/
structure LocalModel where
  id : Option String
  name : String
deriving DecidableEq

/-- The registered `mistral` entry (localModels.js lines 26-33 spread at 114-120). -/
def mistralModel : LocalModel := ⟨none, "Mistral 7B"⟩

/-- `this.processes : Map` keyed by `model.id`; values are process handles
(represented by distinct pids). -/
abbrev ProcessMap := List (Option String × Nat)

/-- JS `Map.prototype.set` on the process map. -/
def pmapSet : ProcessMap → Option String → Nat → ProcessMap
  | [], k, v => [(k, v)]
  | p :: t, k, v => if p.1 == k then (k, v) :: t else p :: pmapSet t k v

/-- JS `Map.prototype.get` on the process map. -/
def pmapGet : ProcessMap → Option String → Option Nat
  | [], _ => none
  | p :: t, k => if p.1 == k then some p.2 else pmapGet t k

/-- The synchronous tail of `LocalModelManager.runModel` (localModels.js line 233):
after `spawn`, the call stores its fresh process handle under `model.id` in the shared
map — unconditionally, with no admission gate. -/
def runModelStart (st : ProcessMap) (model : LocalModel) (pid : Nat) : ProcessMap :=
  pmapSet st model.id pid

/-- C5 (code behavior at the failing input): two concurrent `runModel` requests for the
same model — the second starting before the first's process closes — leave the shared
`processes` map holding only the second request's handle; the first in-flight request's
process reference has been replaced (the spec's semaphore-queueing behavior is absent
from the code). -/
theorem C5_second_request_overwrites :
    runModelStart (runModelStart [] mistralModel 1) mistralModel 2 =
      [(mistralModel.id, 2)]
    ∧ pmapGet (runModelStart (runModelStart [] mistralModel 1) mistralModel 2)
        mistralModel.id = some 2 :=
  ⟨rfl, rfl⟩

/-! ## ModelRegistry resolution — `src/Grimrold/core/modelManager.js` 98-170,
backed by `src/Grimrold/core/local-model-manager.js` -/

/-- An `ApiError` as thrown by modelManager.js, restricted to the observed status and
code fields. -/
structure ApiErr where
  status : Nat
  code : String
deriving DecidableEq

/-- An entry of `this.models` in local-model-manager.js (lines 13-38). -/
structure LmmModel where
  id : String
  name : String
  modelFile : String
  dir : String
deriving DecidableEq

/-- The two registered local models (local-model-manager.js lines 13-38). -/
def lmmModels : List LmmModel :=
  [⟨"deepseek-coder", "DeepSeek Coder", "deepseek-coder-33b-instruct.Q4_K_M.gguf",
    "models/deepseek-coder"⟩,
   ⟨"mistral", "Mistral 7B", "mistral-7b-instruct-v0.1.Q4_K_M.gguf", "models/mistral"⟩]

/-- `this.binaryPath` (local-model-manager.js lines 8-11), platform suffix elided. -/
def binaryPath : String := "bin/main"

/-- `path.join(model.path, model.model)`. -/
def modelFilePath (m : LmmModel) : String := m.dir ++ "/" ++ m.modelFile

/-- Outcome oracle for a spawned inference process. -/
structure ProcOutcome where
  code : Int
  output : String
deriving DecidableEq

/-- `LocalModelManager.listModels` (local-model-manager.js lines 65-93): per model,
status `ready` when both the model artifact and the binary are accessible, `error`
otherwise; `fs` is the `fs.access`-success oracle. -/
def listModels (fs : String → Bool) : List (String × String) :=
  lmmModels.map (fun m =>
    (m.id, if fs (modelFilePath m) && fs binaryPath then "ready" else "error"))

/-- `LocalModelManager.checkModel` (local-model-manager.js lines 41-59). -/
def checkModel (fs : String → Bool) (modelId : String) : Except String Bool :=
  match lmmModels.find? (fun m => m.id == modelId) with
  | none => Except.error ("Model " ++ modelId ++ " not found")
  | some m => Except.ok (fs binaryPath && fs (modelFilePath m))

/-- `LocalModelManager.generateResponse` (local-model-manager.js lines 95-168): throw
for an unknown model, throw before spawning when `checkModel` fails, otherwise spawn
exactly one process and resolve `output.trim()` on exit 0 / reject on nonzero exit.
The second component counts spawned processes. -/
def lmmGenerateResponse (fs : String → Bool) (modelId : String)
    (proc : ProcOutcome) : Except String String × Nat :=
  match lmmModels.find? (fun m => m.id == modelId) with
  | none => (Except.error ("Model " ++ modelId ++ " not found"), 0)
  | some m =>
      match checkModel fs modelId with
      | Except.ok true =>
          (if proc.code = 0 then Except.ok proc.output.trim
           else Except.error ("Model process exited with code " ++ toString proc.code), 1)
      | _ =>
          (Except.error ("Model " ++ modelId ++ " is not available. Run setup first."), 0)

/-- `ModelManager.generateResponse` (modelManager.js lines 98-170): look the model up
in `listModels`; throw `MODEL_NOT_FOUND` (404) when absent, `MODEL_NOT_AVAILABLE`
(503) when its status is not `ready` — in both cases before any spawn — and otherwise
delegate to the local manager, wrapping its non-ApiError failures as
`GENERATION_ERROR` (500).  The second component counts spawned processes. -/
def mmGenerateResponse (fs : String → Bool) (modelId : String)
    (proc : ProcOutcome) : Except ApiErr String × Nat :=
  match (listModels fs).find? (fun p => p.1 == modelId) with
  | none => (Except.error ⟨404, "MODEL_NOT_FOUND"⟩, 0)
  | some info =>
      if info.2 ≠ "ready" then (Except.error ⟨503, "MODEL_NOT_AVAILABLE"⟩, 0)
      else
        match lmmGenerateResponse fs modelId proc with
        | (Except.ok r, n) => (Except.ok r, n)
        | (Except.error _, n) => (Except.error ⟨500, "GENERATION_ERROR"⟩, n)

/-- C6: resolving a model for generation fails with the not-found error
(`MODEL_NOT_FOUND`, the spec's `ModelNotFound`) when the id is not among the
registered models, and with the not-ready error (`MODEL_NOT_AVAILABLE`, the spec's
`ModelNotReady`) when the model is registered but its computed status is not `ready`;
in both failure cases zero inference processes are spawned. -/
theorem C6_resolution_failures (fs : String → Bool) (modelId : String)
    (proc : ProcOutcome) :
    ((∀ m ∈ lmmModels, m.id ≠ modelId) →
      mmGenerateResponse fs modelId proc =
        (Except.error ⟨404, "MODEL_NOT_FOUND"⟩, 0))
    ∧ (∀ m ∈ lmmModels, m.id = modelId →
        (fs (modelFilePath m) && fs binaryPath) = false →
        mmGenerateResponse fs modelId proc =
          (Except.error ⟨503, "MODEL_NOT_AVAILABLE"⟩, 0)) := by
  constructor
  · intro h
    have h1 : ¬ ((("deepseek-coder" : String) == modelId) = true) := by
      simp only [beq_iff_eq]
      exact h ⟨"deepseek-coder", "DeepSeek Coder",
        "deepseek-coder-33b-instruct.Q4_K_M.gguf", "models/deepseek-coder"⟩
        (by simp [lmmModels])
    have h2 : ¬ ((("mistral" : String) == modelId) = true) := by
      simp only [beq_iff_eq]
      exact h ⟨"mistral", "Mistral 7B", "mistral-7b-instruct-v0.1.Q4_K_M.gguf",
        "models/mistral"⟩ (by simp [lmmModels])
    simp [mmGenerateResponse, listModels, lmmModels, modelFilePath, List.find?, h1, h2]
  · intro m hm hid havail
    rcases (by simpa [lmmModels] using hm : m = _ ∨ m = _) with rfl | rfl
    · subst hid
      have havail2 :
          (fs "models/deepseek-coder/deepseek-coder-33b-instruct.Q4_K_M.gguf" &&
            fs binaryPath) = false := havail
      simp [mmGenerateResponse, listModels, lmmModels, modelFilePath, List.find?]
      intro hfile hbin
      rw [hfile, hbin] at havail2
      simp at havail2
    · subst hid
      have havail2 :
          (fs "models/mistral/mistral-7b-instruct-v0.1.Q4_K_M.gguf" &&
            fs binaryPath) = false := havail
      simp [mmGenerateResponse, listModels, lmmModels, modelFilePath, List.find?]
      intro hfile hbin
      rw [hfile, hbin] at havail2
      simp at havail2

/-- Witness for C6: with a filesystem on which nothing is accessible, resolving
`mistral` fails with the 503 not-ready error and spawns nothing. -/
theorem C6_witness :
    ((⟨"mistral", "Mistral 7B", "mistral-7b-instruct-v0.1.Q4_K_M.gguf",
        "models/mistral"⟩ : LmmModel) ∈ lmmModels)
    ∧ mmGenerateResponse (fun _ => false) "mistral" ⟨0, ""⟩ =
        (Except.error ⟨503, "MODEL_NOT_AVAILABLE"⟩, 0) :=
  ⟨by simp [lmmModels],
   (C6_resolution_failures (fun _ => false) "mistral" ⟨0, ""⟩).2
     ⟨"mistral", "Mistral 7B", "mistral-7b-instruct-v0.1.Q4_K_M.gguf",
       "models/mistral"⟩ (by simp [lmmModels]) rfl rfl⟩

/-! ## ConcurrencyToolkit `parallelLimit` — `src/unnamed/part_004` lines 206-225

The loop stores each task's promise at its own input index (`results[index] = p`) and
finishes with `Promise.all(results)`, so the returned values sit at input positions
whatever the completion order.  The `executing` set is tracked only under the guard
`concurrency <= tasks.length`; when full, `await Promise.race(executing)` suspends
until the earliest-settling in-flight entry removes itself.  The embedding makes the
completion order explicit as a priority oracle `prio` (lower = settles sooner) and
conservatively removes exactly the race winner, tracking the running maximum of the
in-flight count; without the guard the whole task list may be in flight at once. -/

/-- The first element of `a :: l` attaining the minimum of `prio` — the entry
`Promise.race` settles on. -/
def minPrioElem (prio : Nat → Nat) (a : Nat) (l : List Nat) : Nat :=
  l.foldl (fun b c => if prio c < prio b then c else b) a

/-- Remove the race winner from the in-flight set (its `.then` splice). -/
def raceRemove (prio : Nat → Nat) : List Nat → List Nat
  | [] => []
  | a :: l => (a :: l).erase (minPrioElem prio a l)

/-- The `for (const [index, task] of tasks.entries())` loop of `parallelLimit` under
the guard `concurrency <= tasks.length`: start the task, push its entry, and when
`executing.length >= concurrency` await the race.  Returns the results (in input
order) and the maximum in-flight count observed. -/
def plGo {α : Type} (c : Nat) (prio : Nat → Nat) :
    List (Unit → α) → Nat → List Nat → Nat → List α × Nat
  | [], _, _, maxSeen => ([], maxSeen)
  | t :: ts, i, ex, maxSeen =>
      let ex1 := ex ++ [i]
      let m1 := max maxSeen ex1.length
      let ex2 := if c ≤ ex1.length then raceRemove prio ex1 else ex1
      let r := plGo c prio ts (i + 1) ex2 m1
      (t () :: r.1, r.2)

/-- `parallelLimit(tasks, concurrency)` (part_004 lines 206-225): results in input
order plus the maximum number of tasks simultaneously in flight.  When
`concurrency > tasks.length` no tracking happens and all tasks may run at once. -/
def parallelLimit {α : Type} (tasks : List (Unit → α)) (c : Nat) (prio : Nat → Nat) :
    List α × Nat :=
  if c ≤ tasks.length then plGo c prio tasks 0 [] 0
  else (tasks.map (fun t => t ()), tasks.length)

/-- Helper: the race winner is one of the in-flight entries. -/
theorem minPrioElem_mem (prio : Nat → Nat) :
    ∀ (l : List Nat) (a : Nat), minPrioElem prio a l ∈ a :: l
  | [], a => by simp [minPrioElem]
  | b :: l, a => by
      have hrec := minPrioElem_mem prio l (if prio b < prio a then b else a)
      unfold minPrioElem at hrec ⊢
      simp only [List.foldl_cons]
      rcases List.mem_cons.mp hrec with h | h
      · rw [h]
        by_cases hc : prio b < prio a
        · simp [hc]
        · simp [hc]
      · simp [h]

/-- Helper: the race removes exactly one in-flight entry. -/
theorem raceRemove_length (prio : Nat → Nat) (l : List Nat) (h : l ≠ []) :
    (raceRemove prio l).length = l.length - 1 := by
  match l with
  | [] => exact absurd rfl h
  | a :: t =>
      unfold raceRemove
      exact List.length_erase_of_mem (minPrioElem_mem prio t a)

/-- Helper: the guarded loop returns the tasks' results in input order. -/
theorem plGo_results {α : Type} (c : Nat) (prio : Nat → Nat) :
    ∀ (ts : List (Unit → α)) (i : Nat) (ex : List Nat) (m : Nat),
      (plGo c prio ts i ex m).1 = ts.map (fun t => t ()) := by
  intro ts
  induction ts with
  | nil => intro i ex m; rfl
  | cons t ts ih =>
      intro i ex m
      simp only [plGo, List.map_cons]
      rw [ih]

/-- Helper: the guarded loop keeps the in-flight count at or below `c`. -/
theorem plGo_bound {α : Type} (c : Nat) (prio : Nat → Nat) (hc : 1 ≤ c) :
    ∀ (ts : List (Unit → α)) (i : Nat) (ex : List Nat) (m : Nat),
      ex.length + 1 ≤ c → m ≤ c → (plGo c prio ts i ex m).2 ≤ c := by
  intro ts
  induction ts with
  | nil => intro i ex m _ hm; exact hm
  | cons t ts ih =>
      intro i ex m hex hm
      simp only [plGo]
      have hlen1 : (ex ++ [i]).length = ex.length + 1 := by simp
      have hne : ex ++ [i] ≠ [] := by simp
      have hm1 : max m (ex ++ [i]).length ≤ c := by
        rw [hlen1]
        exact max_le hm hex
      by_cases hfull : c ≤ (ex ++ [i]).length
      · have hfull2 : c ≤ ex.length + 1 := by rw [← hlen1]; exact hfull
        have hr : (raceRemove prio (ex ++ [i])).length = ex.length := by
          rw [raceRemove_length prio _ hne, hlen1]
          omega
        have := ih (i + 1) (raceRemove prio (ex ++ [i])) (max m (ex ++ [i]).length)
          (by rw [hr]; omega) hm1
        simpa [hfull2] using this
      · have hfull2 : ¬ c ≤ ex.length + 1 := by rw [← hlen1]; exact hfull
        have := ih (i + 1) (ex ++ [i]) (max m (ex ++ [i]).length)
          (by rw [hlen1]; omega) hm1
        simpa [hfull2] using this

/-- C7: for every task list and `concurrency ≥ 1`, and for every completion order,
`parallelLimit` returns a result list of the input's length whose i-th element is the
i-th task's result — independent of `prio`, the completion order — and the number of
tasks in flight never exceeds `concurrency`. -/
theorem C7_parallelLimit_ordered_and_bounded {α : Type} (tasks : List (Unit → α))
    (c : Nat) (prio : Nat → Nat) (hc : 1 ≤ c) :
    (parallelLimit tasks c prio).1 = tasks.map (fun t => t ())
    ∧ (parallelLimit tasks c prio).1.length = tasks.length
    ∧ (parallelLimit tasks c prio).2 ≤ c := by
  unfold parallelLimit
  by_cases hg : c ≤ tasks.length
  · rw [if_pos hg]
    refine ⟨plGo_results c prio tasks 0 [] 0, ?_, ?_⟩
    · rw [plGo_results c prio tasks 0 [] 0]
      simp
    · exact plGo_bound c prio hc tasks 0 [] 0 (by simpa using hc) (by omega)
  · rw [if_neg hg]
    exact ⟨rfl, by simp, by omega⟩

/-- Three concrete tasks for the C7 witness. -/
def wTasks : List (Unit → Nat) := [fun _ => 10, fun _ => 20, fun _ => 30]

/-- Witness for C7 with three tasks, concurrency 2, identity completion order. -/
theorem C7_witness :
    1 ≤ 2
    ∧ ((parallelLimit wTasks 2 (fun k => k)).1 = wTasks.map (fun t => t ())
    ∧ (parallelLimit wTasks 2 (fun k => k)).1.length = wTasks.length
    ∧ (parallelLimit wTasks 2 (fun k => k)).2 ≤ 2) :=
  ⟨by omega, C7_parallelLimit_ordered_and_bounded wTasks 2 (fun k => k) (by omega)⟩

/-! ## ConcurrencyToolkit `debounce` — `src/unnamed/part_004` lines 248-275

Each call clears the previous timer, appends its own `resolve` to the shared
`resolveFuncs` list, and schedules a fresh `later` closing over THIS call's arguments;
when a timer finally fires, `later` invokes `func` once on the newest arguments and
settles every accumulated caller with that single value (or, on error, with the single
rejection).  A burst — calls separated by less than `wait` — is therefore the event
sequence `call a₁, …, call aₘ, fire`: no intermediate timer ever fires because each
subsequent call cancels it. -/

/-- Observable debouncer state: whether a timer is pending, the arguments captured by
the scheduled `later`, the accumulated callers, the invocation log of `func`, and the
settlement log (one entry per settled caller, in settlement order). -/
structure DebounceState (A R : Type) where
  timerSet : Bool
  pendingArgs : Option A
  waiters : Nat
  invocations : List A
  settled : List (Except String R)

/-- Fresh debouncer closure state (part_004 lines 249-250). -/
def debounceInit {A R : Type} : DebounceState A R := ⟨false, none, 0, [], []⟩

/-- One call to the debounced function (part_004 lines 252-273): `clearTimeout` on any
pending timer, push this caller's `resolve`, and schedule `later` capturing this
call's arguments. -/
def debounceCall {A R : Type} (st : DebounceState A R) (a : A) : DebounceState A R :=
  { st with timerSet := true, pendingArgs := some a, waiters := st.waiters + 1 }

/-- The scheduled `later` firing (part_004 lines 254-265): invoke `func` once on the
captured arguments and settle every accumulated caller with that one result — the
value on success, the rejection on error. -/
def debounceFire {A R : Type} (func : A → Except String R) (st : DebounceState A R) :
    DebounceState A R :=
  match st.pendingArgs with
  | none => st
  | some a =>
      { timerSet := false, pendingArgs := none, waiters := 0,
        invocations := st.invocations ++ [a],
        settled := st.settled ++ List.replicate st.waiters (func a) }

/-- Helper: folding a nonempty burst of calls accumulates all callers and captures the
last call's arguments. -/
theorem foldl_debounceCall {A R : Type} :
    ∀ (args : List A) (h : args ≠ []) (st : DebounceState A R),
      args.foldl debounceCall st =
        { st with timerSet := true, pendingArgs := some (args.getLast h),
                  waiters := st.waiters + args.length } := by
  intro args
  induction args with
  | nil => intro h; exact absurd rfl h
  | cons a args ih =>
      intro h st
      match args, ih with
      | [], _ => rfl
      | b :: args2, ih2 =>
          have hne : b :: args2 ≠ [] := by simp
          rw [List.foldl_cons, ih2 hne]
          rw [List.getLast_cons hne]
          simp [debounceCall]
          omega

/-- C9: for every burst of calls to a debounced function (consecutive calls closer
than `wait`, so each call cancels the previous timer), the underlying function is
invoked exactly once, with the arguments of the most recent call, and every caller in
the burst settles with that single invocation's value or error; no settlement is
computed from an earlier caller's arguments. -/
theorem C9_debounce_burst {A R : Type} (func : A → Except String R) (args : List A)
    (h : args ≠ []) :
    (debounceFire func (args.foldl debounceCall debounceInit)).invocations =
      [args.getLast h]
    ∧ (debounceFire func (args.foldl debounceCall debounceInit)).settled =
      List.replicate args.length (func (args.getLast h))
    ∧ (debounceFire func (args.foldl debounceCall debounceInit)).waiters = 0 := by
  rw [foldl_debounceCall args h debounceInit]
  refine ⟨rfl, ?_, rfl⟩
  simp [debounceFire, debounceInit]

/-- Witness for C9: a burst of three calls with arguments 1, 2, 3 — one invocation on
3, and all three callers resolve with its value. -/
theorem C9_witness :
    (([1, 2, 3] : List Nat) ≠ [])
    ∧ (debounceFire (fun n => Except.ok (n * 10))
        (([1, 2, 3] : List Nat).foldl debounceCall debounceInit)).invocations = [3]
    ∧ (debounceFire (fun n => Except.ok (n * 10))
        (([1, 2, 3] : List Nat).foldl debounceCall debounceInit)).settled =
        List.replicate 3 (Except.ok 30) := by
  have h : ([1, 2, 3] : List Nat) ≠ [] := by simp
  have hc := C9_debounce_burst (fun n => Except.ok (n * 10)) [1, 2, 3] h
  exact ⟨h, hc.1, hc.2.1⟩

end Grimrold
